import Mathlib

/-!
Shallow embedding of the Pokédex MCP server (`packages/server/src/index.ts`).

The server keeps its whole state in one JSON file (`./data/pokedex.json`),
loaded with a dynamic `import(...)` at the start of every operation and
rewritten wholesale by `fs.writeFile` after a successful catch.  We model the
backing file as a `FileState` and every handler as a pure function from the
current file state (plus its request inputs) to the new file state and the
response it sends.  Platform primitives (`import`, `JSON.parse`, `parseInt`,
the sampling round-trip, the child-process exec) are modelled by explicit
parameters or small faithful definitions, noted at each definition.
-/

/-- Record stored in the Pokédex collection: one entry of `pokedex.json`,
with integer `id` and the four string fields. -/
structure Pokemon where
  id : Int
  name : String
  type : String
  region : String
  abilities : String
deriving DecidableEq, Repr

/-- Input shape of the catch-pokemon tool and of `catchPokemon`:
name, type, region, abilities, all strings. -/
structure CatchParams where
  name : String
  type : String
  region : String
  abilities : String
deriving DecidableEq, Repr

/-- State of the backing file `./data/pokedex.json`: absent, present but not
valid JSON, or a parsed collection of records. -/
inductive FileState where
  | absent
  | unparseable
  | parsed (records : List Pokemon)
deriving DecidableEq, Repr

/-- Modelled platform semantics of
the dynamic JSON import of `./data/pokedex.json` in the source:
a missing file makes the dynamic import reject (Node `ERR_MODULE_NOT_FOUND`),
a file that is not valid JSON makes it reject with a syntax error, and
otherwise the parsed collection is returned.  Every handler in the source
starts by running exactly this import. -/
def loadAll : FileState → Except String (List Pokemon)
  | .absent => .error "Cannot find module ./data/pokedex.json"
  | .unparseable => .error "Unexpected token in JSON"
  | .parsed records => .ok records

/-- Modelled from `String.prototype.toLowerCase` as used on Pokémon names:
character-wise lowercasing. -/
def jsToLower (s : String) : String :=
  ⟨s.data.map Char.toLower⟩

/-- Translation of `allPokemon.reduce((max, p) => (p.id > max ? p.id : max), 0)`
from `catchPokemon`: the running maximum of the ids, starting from `0`. -/
def maxId (allPokemon : List Pokemon) : Int :=
  allPokemon.foldl (fun m p => if p.id > m then p.id else m) 0

/-- Translation of the async function `catchPokemon` (index.ts lines 317-344):
load the collection, reject a case-insensitive duplicate name with an error
whose message says the name `already exists`, otherwise append a record whose
id is `maxId + 1` and write the whole updated collection back (the write
replaces the backing file with the serialized updated collection, modelled as
the `parsed` state).  Returns the assigned id. -/
def catchPokemon (fs : FileState) (pokemon : CatchParams) :
    Except String (FileState × Int) :=
  match loadAll fs with
  | .error e => .error e
  | .ok allPokemon =>
    match allPokemon.find? (fun p => jsToLower p.name == jsToLower pokemon.name) with
    | some _ =>
      .error ("A Pokémon named " ++ pokemon.name ++ " already exists in the Pokédex!")
    | none =>
      let id := maxId allPokemon + 1
      .ok (.parsed (allPokemon ++
        [⟨id, pokemon.name, pokemon.type, pokemon.region, pokemon.abilities⟩]), id)

/-- Response of a tool invocation as seen by the caller: either a successful
transport envelope whose payload is a text content block, or a
transport-level (protocol) error, which the SDK produces when a handler
throws outside every try/catch. -/
inductive ToolOutcome where
  | envelope (text : String)
  | transportError (message : String)
deriving DecidableEq, Repr

/-- Translation of the catch-pokemon tool handler (index.ts lines 115-131):
the try/catch turns a successful `catchPokemon` into a success text with the
new id, and any thrown failure into the fixed failure text; the file state is
unchanged on failure. -/
def catchPokemonTool (fs : FileState) (params : CatchParams) :
    FileState × ToolOutcome :=
  match catchPokemon fs params with
  | .ok (fs2, id) =>
    (fs2, .envelope ("Pokémon with ID " ++ toString id ++ " caught successfully!"))
  | .error _ => (fs, .envelope "Failed to add Pokémon to Pokédex")

/-- Format of one line of the list-pokedex output:
`#id name (type) - region`. -/
def entryLine (p : Pokemon) : String :=
  "#" ++ toString p.id ++ " " ++ p.name ++ " (" ++ p.type ++ ") - " ++ p.region

/-- Translation of `allPokemon.sort((a, b) => a.id - b.id)`: a stable sort
ascending by id (JavaScript array sort is required to be stable). -/
def sortById (allPokemon : List Pokemon) : List Pokemon :=
  allPokemon.mergeSort (fun a b => a.id ≤ b.id)

/-- Translation of the body of the list-pokedex tool handler after a
successful load (index.ts lines 207-229): the empty-state message for an
empty collection, otherwise a header followed by one formatted line per
record, sorted ascending by id and joined with newlines. -/
def listText (allPokemon : List Pokemon) : String :=
  if allPokemon.length = 0 then
    "The Pokédex is empty. Go catch some Pokémon!"
  else
    "Pokédex entries (" ++ toString allPokemon.length ++ " total):\n" ++
      String.intercalate "\n" ((sortById allPokemon).map entryLine)

/-- Translation of the list-pokedex tool handler (index.ts lines 200-238):
the try/catch turns a failing load into the failure text carrying the error
message, and otherwise returns the listing text.  The handler never writes,
so it returns only the outcome. -/
def listPokedexTool (fs : FileState) : ToolOutcome :=
  match loadAll fs with
  | .ok allPokemon => .envelope (listText allPokemon)
  | .error e => .envelope ("Failed to read Pokédex: " ++ e)

/-- Character class used by JavaScript string trimming and by `parseInt`
when skipping leading whitespace (the ASCII whitespace characters). -/
def isJsWhitespace (c : Char) : Bool :=
  c == ' ' || c == '\t' || c == '\n' || c == '\r' || c == '\x0b' || c == '\x0c'

/-- Leading-whitespace removal on character lists. -/
def trimLeft (l : List Char) : List Char :=
  l.dropWhile isJsWhitespace

/-- Trailing-whitespace removal on character lists. -/
def trimRight (l : List Char) : List Char :=
  (l.reverse.dropWhile isJsWhitespace).reverse

/-- Modelled `String.prototype.trim` on character lists: remove leading and
trailing whitespace. -/
def jsTrimData (l : List Char) : List Char :=
  trimRight (trimLeft l)

/-- Characters of the leading fence marker the discover handler strips. -/
def fenceOpen : List Char := "```json".data

/-- Characters of the trailing fence marker the discover handler strips. -/
def fenceClose : List Char := "```".data

/-- Drops the last `n` elements of a list, as `String.replace` of a trailing
match does. -/
def dropRightData (l : List Char) (n : Nat) : List Char :=
  l.take (l.length - n)

/-- Translation of the normalization applied to the sampled text in the
discover handler (index.ts lines 278-282):
trim, then delete an re1 match, then delete an re2 match, then trim again,
where `re1` matches
the literal `\x60\x60\x60json` anchored at the start and `re2` matches the
literal `\x60\x60\x60` anchored at the end. -/
def stripFencesData (l : List Char) : List Char :=
  let t1 := jsTrimData l
  let t2 := if fenceOpen.isPrefixOf t1 then t1.drop fenceOpen.length else t1
  let t3 := if fenceClose.isSuffixOf t2 then dropRightData t2 fenceClose.length else t2
  jsTrimData t3

/-- String-level wrapper of `stripFencesData`. -/
def stripFences (s : String) : String :=
  ⟨stripFencesData s.data⟩

/-- Decides whether `sub` occurs contiguously inside `l`; the character-list
model of `String.prototype.includes` used by the discover handler on the
error message. -/
def containsSublist (sub : List Char) : List Char → Bool
  | [] => sub.isEmpty
  | c :: rest => sub.isPrefixOf (c :: rest) || containsSublist sub rest

/-- Modelled `String.prototype.includes`. -/
def jsIncludes (s sub : String) : Bool :=
  containsSublist sub.data s.data

/-- Result of the sampling round-trip `server.server.request(sampling)` in the
discover handler: the counterpart answered with text content, answered with
some other content type, or the request itself failed (rejected), in which
case the handler throws outside every try/catch. -/
inductive SamplingResult where
  | text (s : String)
  | nonText
  | requestFailure (message : String)
deriving DecidableEq, Repr

/-- Translation of the discover-wild-pokemon tool handler (index.ts lines
247-314).  The sampling request is awaited outside any try/catch, so a failed
request propagates as a transport error.  Non-text content yields a fixed
failure text.  Text content is fence-stripped and fed to `JSON.parse`
(modelled by the `parse` parameter: `some` is a successfully parsed
candidate-shaped object, `none` a parse failure); a parse failure yields the
escaped text.  Otherwise the candidate goes through `catchPokemon`; a thrown
error whose message includes `already exists` yields the fled text, any other
error the got-away text, and in both error cases nothing was written. -/
def discoverWildPokemonTool (fs : FileState) (res : SamplingResult)
    (parse : String → Option CatchParams) : FileState × ToolOutcome :=
  match res with
  | .requestFailure m => (fs, .transportError m)
  | .nonText => (fs, .envelope "Failed to discover a wild Pokémon")
  | .text s =>
    match parse (stripFences s) with
    | none =>
      (fs, .envelope "The wild Pokémon data was corrupted and it escaped!")
    | some wildPokemon =>
      match catchPokemon fs wildPokemon with
      | .ok (fs2, id) =>
        (fs2, .envelope ("A wild " ++ wildPokemon.name ++
          " appeared and was caught! ID: " ++ toString id))
      | .error e =>
        if jsIncludes e "already exists" then
          (fs, .envelope ("The wild " ++ wildPokemon.name ++
            " fled because another one is already in your Pokédex!"))
        else
          (fs, .envelope "The wild Pokémon got away...")

/-- Result of `execAsync(npx inspector ...)` in the inspect-server handler:
either stdout/stderr of a completed command, or a rejection. -/
inductive ExecResult where
  | output (stdout stderr : String)
  | failure (message : String)
deriving DecidableEq, Repr

/-- Translation of the inspect-server tool handler (index.ts lines 149-191).
The whole body sits in a try/catch: an exec rejection yields the
failed-to-run text, non-empty stderr the inspector-error text, and otherwise
the results text; `render` models the `JSON.parse`-then-pretty-print (or
raw-string fallback) formatting of stdout. -/
def inspectServerTool (method : String) (res : ExecResult)
    (render : String → String) : ToolOutcome :=
  match res with
  | .failure m => .envelope ("Failed to run inspector: " ++ m)
  | .output stdout stderr =>
    if stderr ≠ "" then .envelope ("Inspector error: " ++ stderr)
    else .envelope ("Inspector results for " ++ method ++ ":\n" ++ render stdout)

/-- Value of a decimal digit character, if any. -/
def decDigit? (c : Char) : Option Nat :=
  if '0' ≤ c ∧ c ≤ '9' then some (c.toNat - 48) else none

/-- Value of a hexadecimal digit character, if any. -/
def hexDigit? (c : Char) : Option Nat :=
  if '0' ≤ c ∧ c ≤ '9' then some (c.toNat - 48)
  else if 'a' ≤ c ∧ c ≤ 'f' then some (c.toNat - 87)
  else if 'A' ≤ c ∧ c ≤ 'F' then some (c.toNat - 55)
  else none

/-- Accumulates the value of the longest leading digit run of a list. -/
def takeDigits (digit? : Char → Option Nat) (base : Nat) (acc : Nat) :
    List Char → Nat
  | [] => acc
  | c :: rest =>
    match digit? c with
    | some d => takeDigits digit? base (acc * base + d) rest
    | none => acc

/-- Modelled platform semantics of `parseInt(string)` with no radix argument,
as used by the pokedex-entry resource handler: skip leading whitespace, read
an optional sign, detect a `0x`/`0X` prefix selecting base 16 (otherwise base
10), then take the longest run of digits; if that run is empty the result is
`NaN`, modelled as `none`. -/
def jsParseIntData (l : List Char) : Option Int :=
  let t := trimLeft l
  let sign : Int := if t.head? = some '-' then -1 else 1
  let t2 : List Char :=
    match t with
    | '-' :: r => r
    | '+' :: r => r
    | _ => t
  let hex : Bool :=
    match t2 with
    | '0' :: 'x' :: _ => true
    | '0' :: 'X' :: _ => true
    | _ => false
  let body : List Char :=
    match t2 with
    | '0' :: 'x' :: r => r
    | '0' :: 'X' :: r => r
    | _ => t2
  let digit? := if hex then hexDigit? else decDigit?
  match body with
  | [] => none
  | c :: _ =>
    match digit? c with
    | none => none
    | some _ =>
      some (sign * Int.ofNat (takeDigits digit? (if hex then 16 else 10) 0 body))

/-- String-level wrapper of `jsParseIntData`. -/
def jsParseInt (s : String) : Option Int :=
  jsParseIntData s.data

/-- Content of a pokedex-entry resource read: the serialized matching record,
or the serialized not-found payload, both returned as a successful read. -/
inductive EntryReadResult where
  | entry (p : Pokemon)
  | notFound
deriving DecidableEq, Repr

/-- Translation of the pokedex-entry resource handler (index.ts lines 78-101)
after a successful load: find the first record whose id strictly equals
`parseInt(pokemonId)` (a `NaN` parse compares equal to nothing), returning
its serialization, or the not-found payload when no record matches. -/
def pokedexEntryResource (allPokemon : List Pokemon) (pokemonId : String) :
    EntryReadResult :=
  match allPokemon.find? (fun p =>
      match jsParseInt pokemonId with
      | some n => p.id == n
      | none => false) with
  | some pokemonEntry => .entry pokemonEntry
  | none => .notFound

/-- Runs `catchPokemon` for each candidate in turn, threading the file state;
`none` when any catch in the sequence fails, otherwise the final state and
the list of assigned ids in order. -/
def catchSeq (fs : FileState) : List CatchParams → Option (FileState × List Int)
  | [] => some (fs, [])
  | c :: rest =>
    match catchPokemon fs c with
    | .ok (fs2, id) =>
      match catchSeq fs2 rest with
      | some (fs3, ids) => some (fs3, id :: ids)
      | none => none
    | .error _ => none

/-- First catch of a Pokémon on an empty store assigns id 1: the reduce over
an empty collection yields 0, so the first record gets id 0 + 1 = 1, a
positive integer, with no special case in the code. -/
theorem empty_store_first_id_one (params : CatchParams) :
    maxId [] = 0 ∧
    catchPokemon (.parsed []) params =
      .ok (.parsed [⟨1, params.name, params.type, params.region, params.abilities⟩], 1) := by
  constructor
  · rfl
  · show Except.ok (FileState.parsed [⟨maxId [] + 1, params.name, params.type,
      params.region, params.abilities⟩], maxId [] + 1) = _
    norm_num [maxId]

/-- Witness for C10 at a concrete input: the first catch on the empty store
is assigned id 1. -/
theorem empty_store_first_id_one_witness :
    maxId [] = 0 ∧
    catchPokemon (.parsed []) ⟨"Pika", "Electric", "Kanto", "Static"⟩ =
      .ok (.parsed [⟨1, "Pika", "Electric", "Kanto", "Static"⟩], 1) :=
  empty_store_first_id_one ⟨"Pika", "Electric", "Kanto", "Static"⟩

theorem foldl_max_le (l : List Pokemon) :
    ∀ acc : Int, acc ≤ l.foldl (fun m p => if p.id > m then p.id else m) acc := by
  induction l with
  | nil => intro acc; exact le_refl acc
  | cons p l ih =>
    intro acc
    refine le_trans ?_ (ih (if p.id > acc then p.id else acc))
    split
    · exact le_of_lt (by assumption)
    · exact le_refl acc

theorem maxId_nonneg (store : List Pokemon) : 0 ≤ maxId store :=
  foldl_max_le store 0

theorem id_le_foldl_max (l : List Pokemon) (p : Pokemon) :
    ∀ acc : Int, p ∈ l → p.id ≤ l.foldl (fun m q => if q.id > m then q.id else m) acc := by
  induction l with
  | nil => intro acc h; cases h
  | cons q l ih =>
    intro acc h
    rcases List.mem_cons.mp h with h | h
    · subst h
      refine le_trans ?_ (foldl_max_le l (if p.id > acc then p.id else acc))
      split
      · exact le_refl p.id
      · exact le_of_not_lt (by assumption)
    · exact ih (if q.id > acc then q.id else acc) h

theorem id_le_maxId (store : List Pokemon) (p : Pokemon) (h : p ∈ store) :
    p.id ≤ maxId store :=
  id_le_foldl_max store p 0 h

theorem foldl_max_cases (l : List Pokemon) :
    ∀ acc : Int, l.foldl (fun m p => if p.id > m then p.id else m) acc = acc ∨
      ∃ p ∈ l, l.foldl (fun m p => if p.id > m then p.id else m) acc = p.id := by
  induction l with
  | nil => intro acc; exact Or.inl rfl
  | cons q l ih =>
    intro acc
    rcases ih (if q.id > acc then q.id else acc) with h | ⟨p, hp, h⟩
    · rw [List.foldl_cons, h]
      split
      · exact Or.inr ⟨q, List.mem_cons_self q l, rfl⟩
      · exact Or.inl rfl
    · exact Or.inr ⟨p, List.mem_cons_of_mem q hp, by rw [List.foldl_cons, h]⟩

theorem maxId_attained (store : List Pokemon) (hne : store ≠ [])
    (hpos : ∀ p ∈ store, 0 < p.id) : ∃ p ∈ store, p.id = maxId store := by
  rcases foldl_max_cases store 0 with h | ⟨p, hp, h⟩
  · obtain ⟨q, hq⟩ := List.exists_mem_of_ne_nil store hne
    have h1 : q.id ≤ maxId store := id_le_maxId store q hq
    have h2 : 0 < q.id := hpos q hq
    have : maxId store = 0 := h
    omega
  · exact ⟨p, hp, h.symm⟩

theorem maxId_append_succ (store : List Pokemon) (r : Pokemon)
    (h : r.id = maxId store + 1) : maxId (store ++ [r]) = maxId store + 1 := by
  unfold maxId
  rw [List.foldl_append]
  show (if r.id > maxId store then r.id else maxId store) = maxId store + 1
  rw [if_pos (by omega)]
  exact h

theorem loadAll_ok_inv (fs : FileState) (store : List Pokemon)
    (hload : loadAll fs = .ok store) : fs = .parsed store := by
  cases fs with
  | absent => exact absurd hload (by simp [loadAll])
  | unparseable => exact absurd hload (by simp [loadAll])
  | parsed records =>
    simp only [loadAll, Except.ok.injEq] at hload
    rw [hload]

theorem catchPokemon_ok (fs : FileState) (store : List Pokemon)
    (params : CatchParams) (fs2 : FileState) (id : Int)
    (hload : loadAll fs = .ok store)
    (hok : catchPokemon fs params = .ok (fs2, id)) :
    id = maxId store + 1 ∧
      fs2 = .parsed (store ++ [⟨maxId store + 1, params.name, params.type,
        params.region, params.abilities⟩]) := by
  have hfs := loadAll_ok_inv fs store hload
  subst hfs
  simp only [catchPokemon, loadAll] at hok
  cases hfind : store.find? (fun p => jsToLower p.name == jsToLower params.name) with
  | some q => rw [hfind] at hok; exact absurd hok (by simp)
  | none =>
    rw [hfind] at hok
    simp only [Except.ok.injEq, Prod.mk.injEq] at hok
    obtain ⟨h1, h2⟩ := hok
    exact ⟨h2.symm, h1.symm⟩

theorem catchPokemon_duplicate (fs : FileState) (store : List Pokemon)
    (params : CatchParams) (p : Pokemon)
    (hload : loadAll fs = .ok store) (hmem : p ∈ store)
    (hname : jsToLower p.name = jsToLower params.name) :
    catchPokemon fs params =
      .error ("A Pokémon named " ++ params.name ++ " already exists in the Pokédex!") := by
  have hsome : (store.find? (fun q => jsToLower q.name == jsToLower params.name)).isSome := by
    rw [List.find?_isSome]
    exact ⟨p, hmem, beq_iff_eq.mpr hname⟩
  obtain ⟨q, hq⟩ := Option.isSome_iff_exists.mp hsome
  have hfs := loadAll_ok_inv fs store hload
  subst hfs
  simp only [catchPokemon, loadAll]
  rw [hq]

theorem catchSeq_spec (cs : List CatchParams) :
    ∀ (fs : FileState) (store : List Pokemon) (fs3 : FileState) (ids : List Int),
      loadAll fs = .ok store → catchSeq fs cs = some (fs3, ids) →
      ids = (List.range cs.length).map (fun (i : Nat) => maxId store + 1 + (i : Int)) ∧
      ∃ store3, loadAll fs3 = .ok store3 ∧ (∀ p ∈ store, p ∈ store3) ∧
        ∀ i ∈ ids, ∃ p ∈ store3, p.id = i := by
  induction cs with
  | nil =>
    intro fs store fs3 ids hload hseq
    simp only [catchSeq, Option.some.injEq, Prod.mk.injEq] at hseq
    obtain ⟨h1, h2⟩ := hseq
    subst h1; subst h2
    exact ⟨by simp, store, hload, fun p hp => hp, by simp⟩
  | cons c rest ih =>
    intro fs store fs3 ids hload hseq
    cases hcp : catchPokemon fs c with
    | error e => simp only [catchSeq, hcp] at hseq; exact Option.noConfusion hseq
    | ok v =>
      obtain ⟨fs2, id⟩ := v
      cases hrest : catchSeq fs2 rest with
      | none =>
        simp only [catchSeq, hcp, hrest] at hseq
        exact Option.noConfusion hseq
      | some w =>
        obtain ⟨fs3x, idsx⟩ := w
        simp only [catchSeq, hcp, hrest, Option.some.injEq, Prod.mk.injEq] at hseq
        obtain ⟨h1, h2⟩ := hseq
        subst h1; subst h2
        obtain ⟨hid, hfs2⟩ := catchPokemon_ok fs store c fs2 id hload hcp
        have hload2 : loadAll fs2 = .ok (store ++ [⟨maxId store + 1, c.name,
            c.type, c.region, c.abilities⟩]) := by rw [hfs2]; rfl
        have hmax2 : maxId (store ++ [⟨maxId store + 1, c.name, c.type,
            c.region, c.abilities⟩]) = maxId store + 1 :=
          maxId_append_succ store _ rfl
        obtain ⟨hids, store3, hload3, hsub, hcover⟩ :=
          ih fs2 _ fs3x idsx hload2 hrest
        refine ⟨?_, store3, hload3, ?_, ?_⟩
        · rw [hids, hmax2, List.length_cons, List.range_succ_eq_map,
            List.map_cons, List.map_map]
          refine congrArg₂ List.cons (by omega) (List.map_congr_left ?_)
          intro a _
          simp only [Function.comp_apply, Nat.succ_eq_add_one]
          push_cast
          omega
        · intro p hp
          exact hsub p (List.mem_append_left _ hp)
        · intro i hi
          rcases List.mem_cons.mp hi with hi | hi
          · subst hi
            refine ⟨⟨maxId store + 1, c.name, c.type, c.region, c.abilities⟩,
              hsub _ (List.mem_append_right _ (List.mem_singleton.mpr rfl)), hid.symm⟩
          · exact hcover i hi

/-- Claim C2: with `M` the maximum existing id of the stored collection
(`maxId`, which bounds every stored id and is attained on a non-empty
collection of positive ids), a successful sequence of `k` catches assigns
exactly the ids `M+1 .. M+k`, in order, with no gaps and no reuse, and every
assigned id is stored in the resulting backing file, which is how the ids
persist across process restarts. -/
theorem catch_assigns_sequential_ids (fs : FileState) (store : List Pokemon)
    (cs : List CatchParams) (fs3 : FileState) (ids : List Int)
    (hload : loadAll fs = .ok store)
    (hpos : ∀ p ∈ store, 0 < p.id)
    (hseq : catchSeq fs cs = some (fs3, ids)) :
    (∀ p ∈ store, p.id ≤ maxId store) ∧
    (store ≠ [] → ∃ p ∈ store, p.id = maxId store) ∧
    ids = (List.range cs.length).map (fun (i : Nat) => maxId store + 1 + (i : Int)) ∧
    ∃ store3, loadAll fs3 = .ok store3 ∧ ∀ i ∈ ids, ∃ p ∈ store3, p.id = i := by
  obtain ⟨hids, store3, hload3, _, hcover⟩ :=
    catchSeq_spec cs fs store fs3 ids hload hseq
  exact ⟨fun p hp => id_le_maxId store p hp,
    fun hne => maxId_attained store hne hpos,
    hids, store3, hload3, hcover⟩

/-- Witness for C2 at a concrete store with maximum id 1: two successive
catches are assigned ids 2 and 3, and both end up stored in the file. -/
theorem catch_assigns_sequential_ids_witness :
    loadAll (.parsed [⟨1, "Pika", "Electric", "Kanto", "Static"⟩]) =
      .ok [⟨1, "Pika", "Electric", "Kanto", "Static"⟩] ∧
    (∀ p ∈ [(⟨1, "Pika", "Electric", "Kanto", "Static"⟩ : Pokemon)], 0 < p.id) ∧
    catchSeq (.parsed [⟨1, "Pika", "Electric", "Kanto", "Static"⟩])
        [⟨"Bulba", "Grass", "Kanto", "Overgrow"⟩, ⟨"Charm", "Fire", "Kanto", "Blaze"⟩] =
      some (.parsed [⟨1, "Pika", "Electric", "Kanto", "Static"⟩,
        ⟨2, "Bulba", "Grass", "Kanto", "Overgrow"⟩,
        ⟨3, "Charm", "Fire", "Kanto", "Blaze"⟩], [2, 3]) ∧
    ((∀ p ∈ [(⟨1, "Pika", "Electric", "Kanto", "Static"⟩ : Pokemon)],
        p.id ≤ maxId [⟨1, "Pika", "Electric", "Kanto", "Static"⟩]) ∧
      ([(⟨1, "Pika", "Electric", "Kanto", "Static"⟩ : Pokemon)] ≠ [] →
        ∃ p ∈ [(⟨1, "Pika", "Electric", "Kanto", "Static"⟩ : Pokemon)],
          p.id = maxId [⟨1, "Pika", "Electric", "Kanto", "Static"⟩]) ∧
      [(2 : Int), 3] = (List.range 2).map
        (fun (i : Nat) => maxId [⟨1, "Pika", "Electric", "Kanto", "Static"⟩] + 1 + (i : Int)) ∧
      ∃ store3, loadAll (.parsed [⟨1, "Pika", "Electric", "Kanto", "Static"⟩,
          ⟨2, "Bulba", "Grass", "Kanto", "Overgrow"⟩,
          ⟨3, "Charm", "Fire", "Kanto", "Blaze"⟩]) = .ok store3 ∧
        ∀ i ∈ [(2 : Int), 3], ∃ p ∈ store3, p.id = i) :=
  ⟨rfl, by decide, rfl,
    catch_assigns_sequential_ids
      (.parsed [⟨1, "Pika", "Electric", "Kanto", "Static"⟩])
      [⟨1, "Pika", "Electric", "Kanto", "Static"⟩]
      [⟨"Bulba", "Grass", "Kanto", "Overgrow"⟩, ⟨"Charm", "Fire", "Kanto", "Blaze"⟩]
      (.parsed [⟨1, "Pika", "Electric", "Kanto", "Static"⟩,
        ⟨2, "Bulba", "Grass", "Kanto", "Overgrow"⟩,
        ⟨3, "Charm", "Fire", "Kanto", "Blaze"⟩]) [2, 3]
      rfl (by decide) rfl⟩

theorem append_ne_empty_left (s t : String) (h : s ≠ "") : s ++ t ≠ "" := by
  intro heq
  apply h
  have hd := congrArg String.data heq
  rw [String.data_append] at hd
  exact String.ext (List.append_eq_nil.mp hd).1

theorem listText_ne_empty (store : List Pokemon) : listText store ≠ "" := by
  cases store with
  | nil => decide
  | cons p l =>
    show listText (p :: l) ≠ ""
    unfold listText
    rw [if_neg (by simp)]
    exact append_ne_empty_left _ _
      (append_ne_empty_left _ _ (append_ne_empty_left _ _ (by decide)))

theorem sortById_perm (store : List Pokemon) : (sortById store).Perm store :=
  List.mergeSort_perm store _

theorem sortById_sorted (store : List Pokemon) :
    List.Pairwise (fun p q : Pokemon => p.id ≤ q.id) (sortById store) := by
  have h := @List.sorted_mergeSort Pokemon (fun a b => decide (a.id ≤ b.id))
    (fun a b c hab hbc => by
      simp only [decide_eq_true_eq] at *
      omega)
    (fun a b => by
      simp only [Bool.or_eq_true, decide_eq_true_eq]
      omega)
    store
  exact h.imp (fun hab => by simpa using hab)

/-- Claim C3: the list tool output never is the empty string; on an empty
collection it is exactly the defined empty-state message, and on a non-empty
collection it is a header followed by one `#id name (type) - region` line
per record (`sortById store` is a permutation of the stored collection), in
strictly ascending id order regardless of storage order. -/
theorem list_pokedex_sorted_output (store : List Pokemon)
    (hnodup : (store.map Pokemon.id).Nodup) :
    listText store ≠ "" ∧
    (store = [] → listText store = "The Pokédex is empty. Go catch some Pokémon!") ∧
    (store ≠ [] →
      (sortById store).Perm store ∧
      List.Pairwise (fun p q : Pokemon => p.id < q.id) (sortById store) ∧
      listText store = "Pokédex entries (" ++ toString store.length ++ " total):\n" ++
        String.intercalate "\n" ((sortById store).map entryLine)) := by
  refine ⟨listText_ne_empty store, ?_, ?_⟩
  · intro h
    subst h
    rfl
  · intro hne
    refine ⟨sortById_perm store, ?_, ?_⟩
    · have hperm : ((sortById store).map Pokemon.id).Perm (store.map Pokemon.id) :=
        (sortById_perm store).map Pokemon.id
      have hnd2 : ((sortById store).map Pokemon.id).Nodup :=
        hperm.nodup_iff.mpr hnodup
      have hne2 : List.Pairwise (fun p q : Pokemon => p.id ≠ q.id) (sortById store) :=
        List.pairwise_map.mp hnd2
      exact ((sortById_sorted store).and hne2).imp
        (fun hpq => lt_of_le_of_ne hpq.1 hpq.2)
    · unfold listText
      rw [if_neg (fun h => hne (List.length_eq_zero.mp h))]

/-- Witness for C3 at a concrete out-of-order store: the two records are
listed sorted by ascending id. -/
theorem list_pokedex_sorted_output_witness :
    ([(⟨2, "B", "Grass", "Kanto", "x"⟩ : Pokemon),
        ⟨1, "A", "Fire", "Kanto", "y"⟩].map Pokemon.id).Nodup ∧
    (listText [⟨2, "B", "Grass", "Kanto", "x"⟩, ⟨1, "A", "Fire", "Kanto", "y"⟩] ≠ "" ∧
      ([(⟨2, "B", "Grass", "Kanto", "x"⟩ : Pokemon), ⟨1, "A", "Fire", "Kanto", "y"⟩] = [] →
        listText [⟨2, "B", "Grass", "Kanto", "x"⟩, ⟨1, "A", "Fire", "Kanto", "y"⟩] =
          "The Pokédex is empty. Go catch some Pokémon!") ∧
      ([(⟨2, "B", "Grass", "Kanto", "x"⟩ : Pokemon), ⟨1, "A", "Fire", "Kanto", "y"⟩] ≠ [] →
        (sortById [⟨2, "B", "Grass", "Kanto", "x"⟩, ⟨1, "A", "Fire", "Kanto", "y"⟩]).Perm
          [⟨2, "B", "Grass", "Kanto", "x"⟩, ⟨1, "A", "Fire", "Kanto", "y"⟩] ∧
        List.Pairwise (fun p q : Pokemon => p.id < q.id)
          (sortById [⟨2, "B", "Grass", "Kanto", "x"⟩, ⟨1, "A", "Fire", "Kanto", "y"⟩]) ∧
        listText [⟨2, "B", "Grass", "Kanto", "x"⟩, ⟨1, "A", "Fire", "Kanto", "y"⟩] =
          "Pokédex entries (" ++
            toString ([(⟨2, "B", "Grass", "Kanto", "x"⟩ : Pokemon),
              ⟨1, "A", "Fire", "Kanto", "y"⟩].length) ++ " total):\n" ++
            String.intercalate "\n"
              ((sortById [⟨2, "B", "Grass", "Kanto", "x"⟩,
                ⟨1, "A", "Fire", "Kanto", "y"⟩]).map entryLine))) :=
  ⟨by decide,
    list_pokedex_sorted_output
      [⟨2, "B", "Grass", "Kanto", "x"⟩, ⟨1, "A", "Fire", "Kanto", "y"⟩] (by decide)⟩


/-- Claim C4: every failure thrown inside a tool handler body (storage load
failure, duplicate name, JSON parse failure, inspector exec failure) is
caught by the try/catch of that handler and surfaced as a successful transport
envelope carrying non-empty human-readable text; the catch, list and inspect
handlers always answer with such an envelope, and the discover handler does
so for every sampling response, the sole transport-level failure being a
rejection of the sampling request itself, which happens outside every
try/catch block of the handler. -/
theorem tool_failures_become_text_envelopes :
    (∀ (fs : FileState) (params : CatchParams),
      ∃ t, (catchPokemonTool fs params).2 = .envelope t ∧ t ≠ "") ∧
    (∀ fs : FileState, ∃ t, listPokedexTool fs = .envelope t ∧ t ≠ "") ∧
    (∀ (method : String) (res : ExecResult) (render : String → String),
      ∃ t, inspectServerTool method res render = .envelope t ∧ t ≠ "") ∧
    (∀ (fs : FileState) (res : SamplingResult) (parse : String → Option CatchParams),
      (∀ m, res ≠ SamplingResult.requestFailure m) →
      ∃ t, (discoverWildPokemonTool fs res parse).2 = .envelope t ∧ t ≠ "") := by
  refine ⟨?_, ?_, ?_, ?_⟩
  · intro fs params
    cases h : catchPokemon fs params with
    | ok v =>
      obtain ⟨fs2, id⟩ := v
      simp only [catchPokemonTool, h]
      exact ⟨_, rfl, append_ne_empty_left _ _ (append_ne_empty_left _ _ (by decide))⟩
    | error e =>
      simp only [catchPokemonTool, h]
      exact ⟨_, rfl, by decide⟩
  · intro fs
    cases h : loadAll fs with
    | ok allPokemon =>
      simp only [listPokedexTool, h]
      exact ⟨_, rfl, listText_ne_empty allPokemon⟩
    | error e =>
      simp only [listPokedexTool, h]
      exact ⟨_, rfl, append_ne_empty_left _ _ (by decide)⟩
  · intro method res render
    cases res with
    | failure m =>
      exact ⟨_, rfl, append_ne_empty_left _ _ (by decide)⟩
    | output stdout stderr =>
      simp only [inspectServerTool]
      by_cases hs : stderr = ""
      · rw [if_neg (by simp [hs])]
        exact ⟨_, rfl, append_ne_empty_left _ _
          (append_ne_empty_left _ _ (append_ne_empty_left _ _ (by decide)))⟩
      · rw [if_pos (by simp [hs])]
        exact ⟨_, rfl, append_ne_empty_left _ _ (by decide)⟩
  · intro fs res parse hne
    cases res with
    | requestFailure m => exact absurd rfl (hne m)
    | nonText => exact ⟨_, rfl, by decide⟩
    | text s =>
      simp only [discoverWildPokemonTool]
      cases parse (stripFences s) with
      | none => exact ⟨_, rfl, by decide⟩
      | some wildPokemon =>
        cases h : catchPokemon fs wildPokemon with
        | ok v =>
          obtain ⟨fs2, id⟩ := v
          simp only [h]
          exact ⟨_, rfl, append_ne_empty_left _ _
            (append_ne_empty_left _ _ (append_ne_empty_left _ _ (by decide)))⟩
        | error e =>
          simp only [h]
          cases hj : jsIncludes e "already exists" with
          | true =>
            rw [if_pos rfl]
            exact ⟨_, rfl, append_ne_empty_left _ _
              (append_ne_empty_left _ _ (by decide))⟩
          | false =>
            rw [if_neg (by simp)]
            exact ⟨_, rfl, by decide⟩

/-- Witness for C4 at concrete failing inputs: a duplicate catch, a listing
over an absent file, a failing inspector exec, and a discover whose sampled
text does not parse all yield non-empty text envelopes. -/
theorem tool_failures_become_text_envelopes_witness :
    (∃ t, (catchPokemonTool (.parsed [⟨1, "Pika", "Electric", "Kanto", "Static"⟩])
      ⟨"Pika", "Electric", "Kanto", "Static"⟩).2 = .envelope t ∧ t ≠ "") ∧
    (∃ t, listPokedexTool .absent = .envelope t ∧ t ≠ "") ∧
    (∃ t, inspectServerTool "tools/list" (.failure "spawn failed") (fun s => s) =
      .envelope t ∧ t ≠ "") ∧
    (∀ m, SamplingResult.text "not json" ≠ SamplingResult.requestFailure m) ∧
    (∃ t, (discoverWildPokemonTool .absent (.text "not json") (fun _ => none)).2 =
      .envelope t ∧ t ≠ "") :=
  ⟨tool_failures_become_text_envelopes.1
      (.parsed [⟨1, "Pika", "Electric", "Kanto", "Static"⟩])
      ⟨"Pika", "Electric", "Kanto", "Static"⟩,
    tool_failures_become_text_envelopes.2.1 .absent,
    tool_failures_become_text_envelopes.2.2.1 "tools/list" (.failure "spawn failed")
      (fun s => s),
    fun _ h => SamplingResult.noConfusion h,
    tool_failures_become_text_envelopes.2.2.2 .absent (.text "not json")
      (fun _ => none) (fun _ h => SamplingResult.noConfusion h)⟩


theorem isPrefixOf_append_self (l₁ l₂ : List Char) :
    l₁.isPrefixOf (l₁ ++ l₂) = true := by
  induction l₁ with
  | nil => simp [List.isPrefixOf]
  | cons a as ih => simp [List.isPrefixOf_cons₂, ih]

theorem containsSublist_append_right (sub l₁ l₂ : List Char)
    (h : containsSublist sub l₂ = true) :
    containsSublist sub (l₁ ++ l₂) = true := by
  induction l₁ with
  | nil => simpa using h
  | cons c l₁ ih =>
    show containsSublist sub (c :: (l₁ ++ l₂)) = true
    unfold containsSublist
    rw [ih]
    simp

theorem jsIncludes_already_exists (name : String) :
    jsIncludes ("A Pokémon named " ++ name ++ " already exists in the Pokédex!")
      "already exists" = true := by
  unfold jsIncludes
  rw [String.data_append, String.data_append, List.append_assoc]
  refine containsSublist_append_right _ _ _ ?_
  refine containsSublist_append_right _ _ _ ?_
  decide

/-- Claim C5: on a discover invocation whose sampled text does not parse as
a structured candidate, the tool answers with the escaped-themed failure
text and the file state is returned unchanged; when the parsed candidate
case-insensitively duplicates a stored name, the catch path throws the
already-exists error, the handler recognizes it by substring and answers
with the fled-themed failure text, again leaving the file state unchanged. -/
theorem discover_failures_leave_store_unchanged (fs : FileState)
    (store : List Pokemon) (s : String) (parse : String → Option CatchParams)
    (hload : loadAll fs = .ok store) :
    (parse (stripFences s) = none →
      discoverWildPokemonTool fs (.text s) parse =
        (fs, .envelope "The wild Pokémon data was corrupted and it escaped!")) ∧
    (∀ c, parse (stripFences s) = some c →
      (∃ p ∈ store, jsToLower p.name = jsToLower c.name) →
      discoverWildPokemonTool fs (.text s) parse =
        (fs, .envelope ("The wild " ++ c.name ++
          " fled because another one is already in your Pokédex!"))) := by
  constructor
  · intro hp
    simp only [discoverWildPokemonTool, hp]
  · intro c hp hdup
    obtain ⟨p, hmem, hname⟩ := hdup
    have herr := catchPokemon_duplicate fs store c p hload hmem hname
    simp only [discoverWildPokemonTool, hp, herr]
    rw [if_pos (jsIncludes_already_exists c.name)]

/-- Witness for C5 at concrete inputs: unparseable sampled text makes the
discover tool answer the escaped text over an unchanged empty store, and a
candidate duplicating `Pika` makes it answer the fled text over an unchanged
one-record store. -/
theorem discover_failures_leave_store_unchanged_witness :
    ((fun _ : String => (none : Option CatchParams)) (stripFences "oops") = none →
      discoverWildPokemonTool (.parsed []) (.text "oops")
          (fun _ => none) =
        (.parsed [], .envelope "The wild Pokémon data was corrupted and it escaped!")) ∧
    ((fun _ : String => some (⟨"PIKA", "Electric", "Kanto", "Static"⟩ : CatchParams))
        (stripFences "x") = some ⟨"PIKA", "Electric", "Kanto", "Static"⟩ →
      (∃ p ∈ [(⟨1, "Pika", "Electric", "Kanto", "Static"⟩ : Pokemon)],
        jsToLower p.name = jsToLower "PIKA") →
      discoverWildPokemonTool (.parsed [⟨1, "Pika", "Electric", "Kanto", "Static"⟩])
          (.text "x") (fun _ => some ⟨"PIKA", "Electric", "Kanto", "Static"⟩) =
        (.parsed [⟨1, "Pika", "Electric", "Kanto", "Static"⟩],
          .envelope ("The wild " ++ "PIKA" ++
            " fled because another one is already in your Pokédex!"))) :=
  ⟨(discover_failures_leave_store_unchanged (.parsed []) [] "oops"
      (fun _ => none) rfl).1,
    fun _ _ =>
      (discover_failures_leave_store_unchanged
          (.parsed [⟨1, "Pika", "Electric", "Kanto", "Static"⟩])
          [⟨1, "Pika", "Electric", "Kanto", "Static"⟩] "x"
          (fun _ => some ⟨"PIKA", "Electric", "Kanto", "Static"⟩) rfl).2
        ⟨"PIKA", "Electric", "Kanto", "Static"⟩ rfl
        ⟨⟨1, "Pika", "Electric", "Kanto", "Static"⟩,
          List.mem_singleton.mpr rfl, by decide⟩⟩

/-- Claim C6: resolving the pokedex-entry template parses the placeholder
with `parseInt` and linearly scans for the first record with exactly that
id; a placeholder that does not parse, or parses to an id no record carries
(negative ids included), yields the not-found payload as a successful read,
and a placeholder parsing to a stored id yields the first such record. -/
theorem pokedex_entry_template_resolution (store : List Pokemon) (pid : String) :
    (jsParseInt pid = none → pokedexEntryResource store pid = .notFound) ∧
    (∀ n : Int, jsParseInt pid = some n → (∀ p ∈ store, p.id ≠ n) →
      pokedexEntryResource store pid = .notFound) ∧
    (∀ (n : Int) (p : Pokemon), jsParseInt pid = some n →
      store.find? (fun q => q.id == n) = some p →
      pokedexEntryResource store pid = .entry p ∧ p.id = n ∧ p ∈ store) := by
  refine ⟨?_, ?_, ?_⟩
  · intro hp
    unfold pokedexEntryResource
    simp only [hp]
    rw [List.find?_eq_none.mpr (fun x _ => by simp)]
  · intro n hp habs
    unfold pokedexEntryResource
    simp only [hp]
    rw [List.find?_eq_none.mpr (fun x hx => by
      simp only [beq_iff_eq]
      exact habs x hx)]
  · intro n p hp hfind
    unfold pokedexEntryResource
    simp only [hp]
    rw [hfind]
    have hpa := List.find?_some hfind
    rw [beq_iff_eq] at hpa
    exact ⟨rfl, hpa, List.mem_of_find?_eq_some hfind⟩

/-- Witness for C6 at a concrete one-record store: a non-numeric
placeholder and an absent negative id both resolve to the not-found
payload, while the stored id 5 resolves to its record. -/
theorem pokedex_entry_template_resolution_witness :
    (jsParseInt "abc" = none →
      pokedexEntryResource [⟨5, "Mew", "Psychic", "Kanto", "Synchronize"⟩] "abc" =
        .notFound) ∧
    (jsParseInt "abc" = none) ∧
    (pokedexEntryResource [⟨5, "Mew", "Psychic", "Kanto", "Synchronize"⟩] "abc" =
      .notFound) ∧
    (jsParseInt "-3" = some (-3)) ∧
    (pokedexEntryResource [⟨5, "Mew", "Psychic", "Kanto", "Synchronize"⟩] "-3" =
      .notFound) ∧
    (jsParseInt "5" = some 5) ∧
    (pokedexEntryResource [⟨5, "Mew", "Psychic", "Kanto", "Synchronize"⟩] "5" =
        .entry ⟨5, "Mew", "Psychic", "Kanto", "Synchronize"⟩ ∧
      (⟨5, "Mew", "Psychic", "Kanto", "Synchronize"⟩ : Pokemon).id = 5 ∧
      (⟨5, "Mew", "Psychic", "Kanto", "Synchronize"⟩ : Pokemon) ∈
        [(⟨5, "Mew", "Psychic", "Kanto", "Synchronize"⟩ : Pokemon)]) :=
  ⟨(pokedex_entry_template_resolution
      [⟨5, "Mew", "Psychic", "Kanto", "Synchronize"⟩] "abc").1,
    by decide,
    (pokedex_entry_template_resolution
      [⟨5, "Mew", "Psychic", "Kanto", "Synchronize"⟩] "abc").1 (by decide),
    by decide,
    (pokedex_entry_template_resolution
        [⟨5, "Mew", "Psychic", "Kanto", "Synchronize"⟩] "-3").2.1 (-3)
      (by decide) (by decide),
    by decide,
    (pokedex_entry_template_resolution
        [⟨5, "Mew", "Psychic", "Kanto", "Synchronize"⟩] "5").2.2 5
      ⟨5, "Mew", "Psychic", "Kanto", "Synchronize"⟩ (by decide) (by decide)⟩

/-- Counterexample to claim C7 as stated: an absent backing file is not
treated as the empty collection; the dynamic import of the missing module
rejects, so `loadAll` fails instead of returning the empty collection. -/
theorem loadAll_absent_file_fails :
    loadAll FileState.absent = .error "Cannot find module ./data/pokedex.json" ∧
    loadAll FileState.absent ≠ .ok [] :=
  ⟨rfl, fun h => Except.noConfusion h⟩

/-- Claim C7 amended: loading the collection fails exactly when the backing
file is absent or exists but cannot be parsed as a valid collection; absence
is a fatal import failure rather than an empty collection, and a parseable
file yields its records. -/
theorem loadAll_error_conditions (fs : FileState) :
    ((∃ e, loadAll fs = .error e) ↔ fs = .absent ∨ fs = .unparseable) ∧
    (∀ records, fs = .parsed records → loadAll fs = .ok records) := by
  cases fs with
  | absent => exact ⟨by simp [loadAll], fun records h => FileState.noConfusion h⟩
  | unparseable => exact ⟨by simp [loadAll], fun records h => FileState.noConfusion h⟩
  | parsed rs =>
    refine ⟨by simp [loadAll], fun records h => ?_⟩
    rw [FileState.parsed.injEq] at h
    rw [h]
    rfl

/-- Witness for C7 amended: a parsed one-record file loads its records, and
the absent file satisfies the failure condition. -/
theorem loadAll_error_conditions_witness :
    loadAll (FileState.parsed [⟨1, "Pika", "Electric", "Kanto", "Static"⟩]) =
      .ok [⟨1, "Pika", "Electric", "Kanto", "Static"⟩] ∧
    (FileState.absent = FileState.absent ∨ FileState.absent = FileState.unparseable) :=
  ⟨(loadAll_error_conditions
        (FileState.parsed [⟨1, "Pika", "Electric", "Kanto", "Static"⟩])).2
      [⟨1, "Pika", "Electric", "Kanto", "Static"⟩] rfl,
    (loadAll_error_conditions FileState.absent).1.mp ⟨_, rfl⟩⟩


theorem trimLeft_append_ws (w l : List Char)
    (hw : ∀ c ∈ w, isJsWhitespace c = true) :
    trimLeft (w ++ l) = trimLeft l := by
  unfold trimLeft
  exact List.dropWhile_append_of_pos hw

theorem trimLeft_no_ws (l : List Char)
    (hhead : ∀ c, l.head? = some c → isJsWhitespace c = false) :
    trimLeft l = l := by
  cases l with
  | nil => rfl
  | cons c rest =>
    unfold trimLeft
    rw [List.dropWhile_cons_of_neg (by simp [hhead c rfl])]

theorem trimRight_append_ws (l w : List Char)
    (hw : ∀ c ∈ w, isJsWhitespace c = true) :
    trimRight (l ++ w) = trimRight l := by
  unfold trimRight
  rw [List.reverse_append,
    List.dropWhile_append_of_pos (fun a ha => hw a (List.mem_reverse.mp ha))]

theorem trimRight_no_ws (l : List Char)
    (hlast : ∀ c, l.getLast? = some c → isJsWhitespace c = false) :
    trimRight l = l := by
  unfold trimRight
  cases hr : l.reverse with
  | nil =>
    rw [List.dropWhile_nil, ← hr, List.reverse_reverse]
  | cons c rest =>
    have hc : l.getLast? = some c := by
      rw [← List.head?_reverse, hr]
      rfl
    rw [List.dropWhile_cons_of_neg (by simp [hlast c hc]), ← hr,
      List.reverse_reverse]

theorem head?_append_left (l₁ l₂ : List Char) (h : l₁ ≠ []) :
    (l₁ ++ l₂).head? = l₁.head? := by
  cases l₁ with
  | nil => exact absurd rfl h
  | cons a as => rfl

theorem getLast?_append_right (l₁ l₂ : List Char) (h : l₂ ≠ []) :
    (l₁ ++ l₂).getLast? = l₂.getLast? := by
  rw [List.getLast?_append]
  cases hl : l₂.getLast? with
  | some c => rfl
  | none => exact absurd (List.getLast?_eq_none_iff.mp hl) h

theorem jsTrim_sandwich (w1 w2 m : List Char)
    (hw1 : ∀ c ∈ w1, isJsWhitespace c = true)
    (hw2 : ∀ c ∈ w2, isJsWhitespace c = true)
    (hm : m ≠ [])
    (hhead : ∀ c, m.head? = some c → isJsWhitespace c = false)
    (hlast : ∀ c, m.getLast? = some c → isJsWhitespace c = false) :
    jsTrimData (w1 ++ m ++ w2) = m := by
  unfold jsTrimData
  rw [List.append_assoc, trimLeft_append_ws w1 (m ++ w2) hw1]
  rw [trimLeft_no_ws (m ++ w2) (fun c hc => by
    rw [head?_append_left m w2 hm] at hc
    exact hhead c hc)]
  rw [trimRight_append_ws m w2 hw2]
  exact trimRight_no_ws m hlast

theorem isPrefixOf_false_head (s l : List Char) (c c' : Char)
    (hs : s.head? = some c) (hl : l.head? = some c') (hne : c ≠ c') :
    s.isPrefixOf l = false := by
  cases s with
  | nil => exact absurd hs (by simp)
  | cons a as =>
    cases l with
    | nil => exact absurd hl (by simp)
    | cons b bs =>
      simp only [List.head?_cons, Option.some.injEq] at hs hl
      subst hs
      subst hl
      rw [List.isPrefixOf_cons₂]
      simp [hne]

theorem isSuffixOf_false_last (s l : List Char) (c c' : Char)
    (hs : s.getLast? = some c) (hl : l.getLast? = some c') (hne : c ≠ c') :
    s.isSuffixOf l = false := by
  unfold List.isSuffixOf
  exact isPrefixOf_false_head s.reverse l.reverse c c'
    (by rw [List.head?_reverse]; exact hs)
    (by rw [List.head?_reverse]; exact hl) hne

theorem isSuffixOf_append_self (l₁ l₂ : List Char) :
    l₂.isSuffixOf (l₁ ++ l₂) = true := by
  unfold List.isSuffixOf
  rw [List.reverse_append]
  exact isPrefixOf_append_self _ _

theorem dropRightData_append (l₁ l₂ : List Char) :
    dropRightData (l₁ ++ l₂) l₂.length = l₁ := by
  unfold dropRightData
  rw [List.length_append,
    show l₁.length + l₂.length - l₂.length = l₁.length from by omega]
  exact List.take_left l₁ l₂

theorem discover_text_congr (fs : FileState)
    (parse : String → Option CatchParams) (s t : String)
    (h : stripFences s = stripFences t) :
    discoverWildPokemonTool fs (.text s) parse =
      discoverWildPokemonTool fs (.text t) parse := by
  simp only [discoverWildPokemonTool, h]


theorem append_ne_nil_left (l₁ l₂ : List Char) (h : l₁ ≠ []) : l₁ ++ l₂ ≠ [] :=
  fun he => h (List.append_eq_nil.mp he).1

theorem append_ne_nil_right (l₁ l₂ : List Char) (h : l₂ ≠ []) : l₁ ++ l₂ ≠ [] :=
  fun he => h (List.append_eq_nil.mp he).2

/-- Counterexample to claim C8 as stated: a valid candidate wrapped in bare
leading and trailing code-fence markers is not normalized to the bare
candidate — the handler strips only a leading fence that carries the exact
`json` info string, so the normalized text still begins with a fence
character (code point 96) and cannot parse as a structured candidate. -/
theorem stripFences_bare_fence_not_stripped :
    stripFences "```\n\x7b\"name\":\"Crystafern\"\x7d\n```" ≠
      "\x7b\"name\":\"Crystafern\"\x7d" ∧
    (stripFences "```\n\x7b\"name\":\"Crystafern\"\x7d\n```").data.head? =
      some (Char.ofNat 96) ∧
    stripFences "\x7b\"name\":\"Crystafern\"\x7d" =
      "\x7b\"name\":\"Crystafern\"\x7d" :=
  ⟨by decide, by decide, by decide⟩

/-- Claim C8 amended: the normalization strips exactly a leading fence
marker carrying the `json` info string and/or a trailing bare fence marker,
with optional whitespace around and inside the fences; for every candidate
body delimited by braces it then recovers the bare body, and the discover
operation behaves on the fenced text exactly as on the bare body.  Fences
written any other way (for instance a bare leading fence) are not stripped,
as the counterexample shows. -/
theorem stripFences_json_fence_normalization
    (w1 w2 w3 w4 b : List Char)
    (hw1 : ∀ c ∈ w1, isJsWhitespace c = true)
    (hw2 : ∀ c ∈ w2, isJsWhitespace c = true)
    (hw3 : ∀ c ∈ w3, isJsWhitespace c = true)
    (hw4 : ∀ c ∈ w4, isJsWhitespace c = true)
    (hhead : b.head? = some '\x7b') (hlast : b.getLast? = some '\x7d') :
    stripFencesData (w1 ++ (fenceOpen ++ w2 ++ b ++ w3 ++ fenceClose) ++ w4) = b ∧
    stripFencesData (w1 ++ (fenceOpen ++ w2 ++ b) ++ w4) = b ∧
    stripFencesData (w1 ++ (b ++ w3 ++ fenceClose) ++ w4) = b ∧
    stripFencesData b = b ∧
    ∀ (fs : FileState) (parse : String → Option CatchParams),
      discoverWildPokemonTool fs
          (.text ⟨w1 ++ (fenceOpen ++ w2 ++ b ++ w3 ++ fenceClose) ++ w4⟩) parse =
        discoverWildPokemonTool fs (.text ⟨b⟩) parse := by
  have hbne : b ≠ [] := by
    intro h
    rw [h] at hhead
    exact Option.noConfusion hhead
  have hfo : fenceOpen ≠ [] := by decide
  have hfc : fenceClose ≠ [] := by decide
  have hfoh : fenceOpen.head? = some (Char.ofNat 96) := by decide
  have hfcl : fenceClose.getLast? = some (Char.ofNat 96) := by decide
  have hbh : ∀ c, b.head? = some c → isJsWhitespace c = false := by
    intro c hc
    rw [hhead, Option.some.injEq] at hc
    subst hc
    decide
  have hbl : ∀ c, b.getLast? = some c → isJsWhitespace c = false := by
    intro c hc
    rw [hlast, Option.some.injEq] at hc
    subst hc
    decide
  have htrimb : jsTrimData b = b := by
    have h := jsTrim_sandwich [] [] b (by simp) (by simp) hbne hbh hbl
    rwa [List.nil_append, List.append_nil] at h
  have hc1 : stripFencesData (w1 ++ (fenceOpen ++ w2 ++ b ++ w3 ++ fenceClose) ++ w4)
      = b := by
    have ht1 : jsTrimData (w1 ++ (fenceOpen ++ w2 ++ b ++ w3 ++ fenceClose) ++ w4)
        = fenceOpen ++ w2 ++ b ++ w3 ++ fenceClose := by
      refine jsTrim_sandwich w1 w4 _ hw1 hw4
        (append_ne_nil_right _ _ hfc) ?_ ?_
      · intro c hc
        rw [head?_append_left _ _ (append_ne_nil_left _ _ (append_ne_nil_left _ _
            (append_ne_nil_left _ _ hfo))),
          head?_append_left _ _ (append_ne_nil_left _ _ (append_ne_nil_left _ _ hfo)),
          head?_append_left _ _ (append_ne_nil_left _ _ hfo),
          head?_append_left _ _ hfo, hfoh, Option.some.injEq] at hc
        subst hc
        decide
      · intro c hc
        rw [getLast?_append_right _ _ hfc, hfcl, Option.some.injEq] at hc
        subst hc
        decide
    have hpre : fenceOpen.isPrefixOf (fenceOpen ++ w2 ++ b ++ w3 ++ fenceClose)
        = true := by
      rw [show fenceOpen ++ w2 ++ b ++ w3 ++ fenceClose =
          fenceOpen ++ (w2 ++ (b ++ (w3 ++ fenceClose))) from by
        simp only [List.append_assoc]]
      exact isPrefixOf_append_self _ _
    have hdrop : (fenceOpen ++ w2 ++ b ++ w3 ++ fenceClose).drop fenceOpen.length
        = (w2 ++ b ++ w3) ++ fenceClose := by
      rw [show fenceOpen ++ w2 ++ b ++ w3 ++ fenceClose =
          fenceOpen ++ ((w2 ++ b ++ w3) ++ fenceClose) from by
        simp only [List.append_assoc]]
      exact List.drop_left _ _
    simp only [stripFencesData]
    rw [ht1, if_pos hpre, hdrop, if_pos (isSuffixOf_append_self _ _),
      dropRightData_append]
    exact jsTrim_sandwich w2 w3 b hw2 hw3 hbne hbh hbl
  have hc2 : stripFencesData (w1 ++ (fenceOpen ++ w2 ++ b) ++ w4) = b := by
    have ht1 : jsTrimData (w1 ++ (fenceOpen ++ w2 ++ b) ++ w4)
        = fenceOpen ++ w2 ++ b := by
      refine jsTrim_sandwich w1 w4 _ hw1 hw4 (append_ne_nil_right _ _ hbne) ?_ ?_
      · intro c hc
        rw [head?_append_left _ _ (append_ne_nil_left _ _ hfo),
          head?_append_left _ _ hfo, hfoh, Option.some.injEq] at hc
        subst hc
        decide
      · intro c hc
        rw [getLast?_append_right _ _ hbne] at hc
        exact hbl c hc
    have hpre : fenceOpen.isPrefixOf (fenceOpen ++ w2 ++ b) = true := by
      rw [show fenceOpen ++ w2 ++ b = fenceOpen ++ (w2 ++ b) from by
        simp only [List.append_assoc]]
      exact isPrefixOf_append_self _ _
    have hdrop : (fenceOpen ++ w2 ++ b).drop fenceOpen.length = w2 ++ b := by
      rw [show fenceOpen ++ w2 ++ b = fenceOpen ++ (w2 ++ b) from by
        simp only [List.append_assoc]]
      exact List.drop_left _ _
    have hsuf : fenceClose.isSuffixOf (w2 ++ b) = false := by
      refine isSuffixOf_false_last fenceClose (w2 ++ b) (Char.ofNat 96) '\x7d'
        hfcl ?_ (by decide)
      rw [getLast?_append_right _ _ hbne]
      exact hlast
    simp only [stripFencesData]
    rw [ht1, if_pos hpre, hdrop, if_neg (ne_true_of_eq_false hsuf)]
    have h := jsTrim_sandwich w2 [] b hw2 (by simp) hbne hbh hbl
    rwa [List.append_nil] at h
  have hc3 : stripFencesData (w1 ++ (b ++ w3 ++ fenceClose) ++ w4) = b := by
    have ht1 : jsTrimData (w1 ++ (b ++ w3 ++ fenceClose) ++ w4)
        = b ++ w3 ++ fenceClose := by
      refine jsTrim_sandwich w1 w4 _ hw1 hw4 (append_ne_nil_right _ _ hfc) ?_ ?_
      · intro c hc
        rw [head?_append_left _ _ (append_ne_nil_left _ _ hbne),
          head?_append_left _ _ hbne] at hc
        exact hbh c hc
      · intro c hc
        rw [getLast?_append_right _ _ hfc, hfcl, Option.some.injEq] at hc
        subst hc
        decide
    have hpre : fenceOpen.isPrefixOf (b ++ w3 ++ fenceClose) = false := by
      refine isPrefixOf_false_head fenceOpen (b ++ w3 ++ fenceClose)
        (Char.ofNat 96) '\x7b' hfoh ?_ (by decide)
      rw [head?_append_left _ _ (append_ne_nil_left _ _ hbne),
        head?_append_left _ _ hbne]
      exact hhead
    have hsuf : fenceClose.isSuffixOf (b ++ w3 ++ fenceClose) = true := by
      rw [show b ++ w3 ++ fenceClose = (b ++ w3) ++ fenceClose from rfl]
      exact isSuffixOf_append_self _ _
    have hdropr : dropRightData (b ++ w3 ++ fenceClose) fenceClose.length
        = b ++ w3 := dropRightData_append (b ++ w3) fenceClose
    simp only [stripFencesData]
    rw [ht1, if_neg (ne_true_of_eq_false hpre), if_pos hsuf, hdropr]
    have h := jsTrim_sandwich [] w3 b (by simp) hw3 hbne hbh hbl
    rwa [List.nil_append] at h
  have hc4 : stripFencesData b = b := by
    have hpre : fenceOpen.isPrefixOf b = false :=
      isPrefixOf_false_head fenceOpen b (Char.ofNat 96) '\x7b' hfoh hhead (by decide)
    have hsuf : fenceClose.isSuffixOf b = false :=
      isSuffixOf_false_last fenceClose b (Char.ofNat 96) '\x7d' hfcl hlast (by decide)
    simp only [stripFencesData]
    rw [htrimb, if_neg (ne_true_of_eq_false hpre),
      if_neg (ne_true_of_eq_false hsuf)]
    exact htrimb
  refine ⟨hc1, hc2, hc3, hc4, ?_⟩
  intro fs parse
  refine discover_text_congr fs parse _ _ ?_
  show (⟨stripFencesData (w1 ++ (fenceOpen ++ w2 ++ b ++ w3 ++ fenceClose) ++ w4)⟩
      : String) = ⟨stripFencesData b⟩
  rw [hc1, hc4]

/-- Witness for C8 amended at a concrete candidate: the body wrapped in a
`json`-tagged fence with newlines normalizes to the bare body, and the
discover operation treats the fenced and bare texts identically. -/
theorem stripFences_json_fence_normalization_witness :
    stripFencesData ([] ++ (fenceOpen ++ "\n".data ++
        "\x7b\"name\":\"Crystafern\"\x7d".data ++ "\n".data ++ fenceClose) ++ [])
      = "\x7b\"name\":\"Crystafern\"\x7d".data ∧
    stripFencesData "\x7b\"name\":\"Crystafern\"\x7d".data
      = "\x7b\"name\":\"Crystafern\"\x7d".data ∧
    discoverWildPokemonTool (.parsed [])
        (.text ⟨[] ++ (fenceOpen ++ "\n".data ++
          "\x7b\"name\":\"Crystafern\"\x7d".data ++ "\n".data ++ fenceClose) ++ []⟩)
        (fun _ => none) =
      discoverWildPokemonTool (.parsed [])
        (.text ⟨"\x7b\"name\":\"Crystafern\"\x7d".data⟩) (fun _ => none) := by
  have h := stripFences_json_fence_normalization [] "\n".data "\n".data []
    "\x7b\"name\":\"Crystafern\"\x7d".data
    (by decide) (by decide) (by decide) (by decide) (by decide) (by decide)
  exact ⟨h.1, h.2.2.2.1, h.2.2.2.2 (.parsed []) (fun _ => none)⟩

/-- Claim C1: a catch invocation whose name case-insensitively equals the
name of an existing record returns the duplicate-conflict failure text (the
catch tool surfaces every `catchPokemon` failure, the duplicate included, as
the fixed failure text) and leaves the persisted collection untouched: the
file state returned with the response is exactly the input file state, so
same records, same count, same ids. -/
theorem catch_duplicate_leaves_store_unchanged (fs : FileState)
    (store : List Pokemon) (params : CatchParams) (p : Pokemon)
    (hload : loadAll fs = .ok store) (hmem : p ∈ store)
    (hname : jsToLower p.name = jsToLower params.name) :
    catchPokemonTool fs params = (fs, .envelope "Failed to add Pokémon to Pokédex") := by
  unfold catchPokemonTool
  rw [catchPokemon_duplicate fs store params p hload hmem hname]

/-- Witness for C1 at a concrete store: catching `PIKA` against a store
holding `Pika` yields the failure text and the unchanged store. -/
theorem catch_duplicate_leaves_store_unchanged_witness :
    loadAll (.parsed [⟨1, "Pika", "Electric", "Kanto", "Static"⟩]) =
      .ok [⟨1, "Pika", "Electric", "Kanto", "Static"⟩] ∧
    (⟨1, "Pika", "Electric", "Kanto", "Static"⟩ : Pokemon) ∈
      [(⟨1, "Pika", "Electric", "Kanto", "Static"⟩ : Pokemon)] ∧
    jsToLower "Pika" = jsToLower "PIKA" ∧
    catchPokemonTool (.parsed [⟨1, "Pika", "Electric", "Kanto", "Static"⟩])
        ⟨"PIKA", "Electric", "Kanto", "Static"⟩ =
      (.parsed [⟨1, "Pika", "Electric", "Kanto", "Static"⟩],
        .envelope "Failed to add Pokémon to Pokédex") :=
  ⟨rfl, List.mem_singleton.mpr rfl, by decide,
    catch_duplicate_leaves_store_unchanged
      (.parsed [⟨1, "Pika", "Electric", "Kanto", "Static"⟩])
      [⟨1, "Pika", "Electric", "Kanto", "Static"⟩]
      ⟨"PIKA", "Electric", "Kanto", "Static"⟩ ⟨1, "Pika", "Electric", "Kanto", "Static"⟩
      rfl (List.mem_singleton.mpr rfl) (by decide)⟩

/-- Claim C9: a successful catch changes the persisted collection to exactly
the old collection with one new record appended at the end; every
pre-existing record keeps its field values and relative position, and the
appended record carries the submitted fields with the freshly assigned id. -/
theorem catch_success_appends_exactly_one (fs : FileState) (store : List Pokemon)
    (params : CatchParams) (fs2 : FileState) (id : Int)
    (hload : loadAll fs = .ok store)
    (hok : catchPokemon fs params = .ok (fs2, id)) :
    fs2 = .parsed (store ++ [⟨id, params.name, params.type, params.region,
      params.abilities⟩]) ∧ id = maxId store + 1 := by
  obtain ⟨h1, h2⟩ := catchPokemon_ok fs store params fs2 id hload hok
  subst h1
  exact ⟨h2, rfl⟩

/-- Witness for C9 at a concrete store: catching `Bulba` over a store holding
`Pika` appends exactly the one new record with id 2. -/
theorem catch_success_appends_exactly_one_witness :
    loadAll (.parsed [⟨1, "Pika", "Electric", "Kanto", "Static"⟩]) =
      .ok [⟨1, "Pika", "Electric", "Kanto", "Static"⟩] ∧
    catchPokemon (.parsed [⟨1, "Pika", "Electric", "Kanto", "Static"⟩])
        ⟨"Bulba", "Grass", "Kanto", "Overgrow"⟩ =
      .ok (.parsed [⟨1, "Pika", "Electric", "Kanto", "Static"⟩,
        ⟨2, "Bulba", "Grass", "Kanto", "Overgrow"⟩], 2) ∧
    (FileState.parsed [⟨1, "Pika", "Electric", "Kanto", "Static"⟩,
        ⟨2, "Bulba", "Grass", "Kanto", "Overgrow"⟩] =
      .parsed ([⟨1, "Pika", "Electric", "Kanto", "Static"⟩] ++
        [⟨2, "Bulba", "Grass", "Kanto", "Overgrow"⟩]) ∧
      (2 : Int) = maxId [⟨1, "Pika", "Electric", "Kanto", "Static"⟩] + 1) :=
  ⟨rfl, rfl,
    catch_success_appends_exactly_one
      (.parsed [⟨1, "Pika", "Electric", "Kanto", "Static"⟩])
      [⟨1, "Pika", "Electric", "Kanto", "Static"⟩]
      ⟨"Bulba", "Grass", "Kanto", "Overgrow"⟩
      (.parsed [⟨1, "Pika", "Electric", "Kanto", "Static"⟩,
        ⟨2, "Bulba", "Grass", "Kanto", "Overgrow"⟩]) 2 rfl rfl⟩
